import Mathlib

/-!
Verification of the rust-interpreter repository (a tree-walking Lox-family
interpreter) against its natural-language specification.

The Rust source is shallowly embedded:
* `Rc<RefCell<Environment>>` handles become indices (`Nat`) into an explicit
  store (`List Environment`); allocation appends, so an enclosing reference
  is always a smaller index than the environment holding it.
* `f64` numbers are modelled as exact rationals (`ℚ`); the programs settled
  here use only small integers, on which IEEE-754 arithmetic is exact. The
  carrier is not a model of IEEE-754 itself (no rounding, no ±∞/NaN), so
  floating-point claims are out of this embedding's scope.
* possibly diverging loops (the evaluator's recursion, the scanner's while
  loops) take a fuel parameter; exhausting fuel yields a distinguished
  "diverge" result that models the Rust code failing to terminate.
* `println!` output is collected as a trace of printed `Value`s.
-/

/-! ## Tokens (src/scanner.rs) -/

/-- TokenType from src/scanner.rs. -/
inductive TokenType where
  | LeftParen | RightParen | LeftBrace | RightBrace
  | Comma | Dot | Minus | Plus | Semicolon | Slash | Star
  | Bang | BangEqual | Equal | EqualEqual
  | Greater | GreaterEqual | Less | LessEqual
  | Identifier | String | Number
  | And | Class | Else | False | Fun | For | If | Nil | Or
  | Print | Return | Super | This | True | Var | While
  | EOF
deriving DecidableEq, Repr

/-- Literal from src/scanner.rs; the f64 payload is modelled as ℚ. -/
inductive Literal where
  | String (s : String)
  | Number (n : ℚ)
deriving DecidableEq, Repr

/-- Token from src/scanner.rs. Source bytes are modelled as `Char`s
(one `Char` per byte; exact for ASCII input), so the `Vec<u8>` lexeme
becomes a `List Char`. -/
structure Token where
  token_type : TokenType
  lexeme : List Char
  line : Nat
  literal : Option Literal
  column : Nat
deriving DecidableEq, Repr

/-! ## AST (src/parser.rs) -/

/-- BinaryOperator from src/parser.rs. -/
inductive BinaryOperator where
  | Minus | Plus | Slash | Star
  | BangEqual | EqualEqual
  | Greater | GreaterEqual | Less | LessEqual
  | And | Or
deriving DecidableEq, Repr

/-- UnaryOperator from src/parser.rs. -/
inductive UnaryOperator where
  | Bang
  | Minus
deriving DecidableEq, Repr

/-- LiteralValue from src/parser.rs; f64 modelled as ℚ. -/
inductive LiteralValue where
  | Number (n : ℚ)
  | String (s : String)
  | Boolean (b : Bool)
  | Nil
deriving DecidableEq, Repr

/-- Expr from src/parser.rs. -/
inductive Expr where
  | Binary (left : Expr) (right : Expr) (op : BinaryOperator)
  | Unary (operand : Expr) (op : UnaryOperator)
  | Literal (lit : LiteralValue)
  | Variable (token : Token)
  | Assignment (name : String) (value : Expr)
  | Call (callee : Expr) (args : List Expr)
deriving Repr

/-- Statement from src/parser.rs. -/
inductive Statement where
  | Expression (expr : Expr)
  | Print (expr : Expr)
  | Declaration (name : Token) (initializer : Option Expr)
  | Block (statements : List Statement)
  | If (condition : Expr) (then_branch : Statement) (else_branch : Option Statement)
  | Function (name : Token) (params : List Token) (block : List Statement)
  | Return (keyword : Token) (value : Option Expr)
deriving Repr

/-! ## Values, runtime errors, environments (src/interpreter.rs, src/environment.rs) -/

/-- Value from src/interpreter.rs. The `closure: Rc<RefCell<Environment>>`
of a function value becomes an index into the interpreter's environment
store. A `NativeFunction` is represented by its name; its `callable`
function pointer is dispatched by name at the call site (the only native
the program constructs is `clock`). -/
inductive Value where
  | Number (n : ℚ)
  | String (s : String)
  | Bool (b : Bool)
  | Nil
  | NativeFunction (name : String)
  | Function (name : String) (params : List String) (body : List Statement) (closure : Nat)
deriving Repr

/-- RuntimeError from src/interpreter.rs. -/
inductive RuntimeError where
  | Runtime (message : String)
  | InvalidFunction
  | UndefinedVariable (name : String)
  | Return (value : Value)
deriving Repr

/-- Environment from src/environment.rs: a `HashMap<String, Value>` of
bindings (modelled as an association list with overwrite-on-insert, which
has exactly the map semantics used by the code) plus an optional shared
reference to the enclosing environment, modelled as a store index. -/
structure Environment where
  bindings : List (String × Value)
  enclosing : Option Nat
deriving Repr

/-- The mutable state threaded through evaluation: the store of all
allocated environments (the heap of `Rc<RefCell<Environment>>` cells),
the interpreter's current-environment handle `env`, and the trace of
values written by `print`. -/
structure InterpState where
  store : List Environment
  env : Nat
  output : List Value
deriving Repr

/-- Result of evaluating a piece of code: `ok`/`err` mirror
`Result<_, RuntimeError>` and carry the state after evaluation,
`diverge` models non-termination (fuel exhaustion), and `panicked`
models a Rust panic (the `todo!()` in `Expr::Unary` and the
out-of-bounds `evaluated_args[i]` in the call parameter binding). -/
inductive EvalRes (α : Type) where
  | ok (a : α) (s : InterpState)
  | err (e : RuntimeError) (s : InterpState)
  | diverge
  | panicked
deriving Repr

/-- `HashMap::insert`: overwrite the binding if present, else add it. -/
def insertBinding : List (String × Value) → String → Value → List (String × Value)
  | [], n, v => [(n, v)]
  | (k, w) :: rest, n, v =>
    if k = n then (n, v) :: rest else (k, w) :: insertBinding rest n v

/-- `HashMap::get`: the value bound to `n`, if any. -/
def lookupBinding : List (String × Value) → String → Option Value
  | [], _ => none
  | (k, w) :: rest, n => if k = n then some w else lookupBinding rest n

/-- Mutate the environment at index `ref` through its shared handle.
`ref` is always a live index; out-of-range is unreachable. -/
def modifyEnv (store : List Environment) (ref : Nat) (f : Environment → Environment) :
    List Environment :=
  match store[ref]? with
  | none => store
  | some env => store.set ref (f env)

/-- Environment::get from src/environment.rs: return the value from the
innermost scope containing `name`, else delegate to the enclosing scope,
else absent. The fuel bounds the walk up the enclosing chain; since every
enclosing reference points to an earlier allocation, `store.length + 1`
fuel (used by `envGet`) always suffices. -/
def envGetFuel : Nat → List Environment → Nat → String → Option Value
  | 0, _, _, _ => none
  | fuel + 1, store, ref, name =>
    match store[ref]? with
    | none => none
    | some env =>
      match lookupBinding env.bindings name with
      | some v => some v
      | none =>
        match env.enclosing with
        | none => none
        | some p => envGetFuel fuel store p name

/-- Environment::get at its always-sufficient fuel. -/
def envGet (store : List Environment) (ref : Nat) (name : String) : Option Value :=
  envGetFuel (store.length + 1) store ref name

/-- Environment::assign from src/environment.rs: if `name` is bound
locally, overwrite it; otherwise delegate to the enclosing scope;
otherwise fail with `UndefinedVariable(name)`. Returns the updated store
on success; on failure no environment is modified. -/
def envAssignFuel : Nat → List Environment → Nat → String → Value →
    Except RuntimeError (List Environment)
  | 0, _, _, name, _ => .error (.UndefinedVariable name)
  | fuel + 1, store, ref, name, v =>
    match store[ref]? with
    | none => .error (.UndefinedVariable name)
    | some env =>
      if (lookupBinding env.bindings name).isSome then
        .ok (store.set ref { env with bindings := insertBinding env.bindings name v })
      else
        match env.enclosing with
        | none => .error (.UndefinedVariable name)
        | some p => envAssignFuel fuel store p name v

/-- Environment::assign at its always-sufficient fuel. -/
def envAssign (store : List Environment) (ref : Nat) (name : String) (v : Value) :
    Except RuntimeError (List Environment) :=
  envAssignFuel (store.length + 1) store ref name v

/-- The index of the innermost environment in the chain starting at `ref`
whose bindings contain `name` (the scope that `get` reads from and
`assign` writes to), if any. -/
def chainFindFuel : Nat → List Environment → Nat → String → Option Nat
  | 0, _, _, _ => none
  | fuel + 1, store, ref, name =>
    match store[ref]? with
    | none => none
    | some env =>
      if (lookupBinding env.bindings name).isSome then some ref
      else
        match env.enclosing with
        | none => none
        | some p => chainFindFuel fuel store p name

/-- `chainFindFuel` at the fuel used by `envGet` and `envAssign`. -/
def chainFind (store : List Environment) (ref : Nat) (name : String) : Option Nat :=
  chainFindFuel (store.length + 1) store ref name

/-- Environment::define from src/environment.rs: unconditionally
insert/overwrite in the local scope of the environment at `ref`. -/
def envDefine (store : List Environment) (ref : Nat) (name : String) (v : Value) :
    List Environment :=
  modifyEnv store ref (fun env => { env with bindings := insertBinding env.bindings name v })

/-! ## Binary operator dispatch (Interpreter::evaluate_binary_op) -/

/-- Display for Value (src/interpreter.rs); used only to build runtime
error messages. Number formatting approximates Rust's f64 Display by the
rational's string form. -/
def displayValue : Value → String
  | .Number n => toString n
  | .String s => s
  | .Bool b => toString b
  | .Nil => "nil"
  | .NativeFunction name => name
  | .Function name _ _ _ => "function " ++ name ++ "()"

/-- Display for BinaryOperator (src/parser.rs). -/
def displayBinaryOperator : BinaryOperator → String
  | .Minus => "-"
  | .Plus => "+"
  | .Slash => "/"
  | .Star => "*"
  | .BangEqual => "!="
  | .EqualEqual => "=="
  | .Greater => ">"
  | .GreaterEqual => ">="
  | .Less => "<"
  | .LessEqual => "<="
  | .And => "and"
  | .Or => "or"

/-- The dispatch table of Interpreter::evaluate_binary_op, applied after
both operands have been evaluated: the eleven listed
(value, operator, value) shapes succeed, every other combination is a
`Runtime` error carrying a description.

Caveat on the number carrier: the `ℚ` arithmetic here stands in for the
program's `f64` arithmetic and coincides with it only where f64 is exact
(the small-integer programs evaluated in this development). It is not a
model of IEEE-754 semantics: division by zero yields 0 here where the
program yields ±∞ or NaN, and rounding, overflow and NaN propagation are
erased. Properties about the IEEE-754 behaviour of these operators are
therefore outside this embedding and are not settled against this
definition. -/
def applyBinOp (l : Value) (op : BinaryOperator) (r : Value) : Except RuntimeError Value :=
  match l, op, r with
  | .Number a, .Plus, .Number b => .ok (.Number (a + b))
  | .Number a, .Minus, .Number b => .ok (.Number (a - b))
  | .Number a, .Star, .Number b => .ok (.Number (a * b))
  | .Number a, .Slash, .Number b => .ok (.Number (a / b))
  | .Bool a, .And, .Bool b => .ok (.Bool (a && b))
  | .Bool a, .Or, .Bool b => .ok (.Bool (a || b))
  | .Number a, .Greater, .Number b => .ok (.Bool (decide (a > b)))
  | .Number a, .GreaterEqual, .Number b => .ok (.Bool (decide (a ≥ b)))
  | .Number a, .Less, .Number b => .ok (.Bool (decide (a < b)))
  | .Number a, .LessEqual, .Number b => .ok (.Bool (decide (a ≤ b)))
  | .Number a, .EqualEqual, .Number b => .ok (.Bool (decide (a = b)))
  | l, op, r =>
    .error (.Runtime ("Invalid operation: " ++ displayValue l ++ " "
      ++ displayBinaryOperator op ++ " " ++ displayValue r))

/-! ## The evaluator (src/interpreter.rs) -/

/-- `String::from_utf8(token.lexeme).unwrap()` (exact for ASCII). -/
def lexemeName (t : Token) : String := String.mk t.lexeme

/-- The parameter-binding loop of the `Expr::Call` arm: for each parameter
(in order, with its index `i`) define it in the fresh call environment to
`evaluated_args[i]`. The Rust indexing panics when `i` is past the end of
the evaluated-argument list; that is the `none` result here. -/
def bindParamsAux (envRef : Nat) : List Environment → List String → List Value → Nat →
    Option (List Environment)
  | store, [], _, _ => some store
  | store, p :: ps, args, i =>
    match args[i]? with
    | none => none
    | some v => bindParamsAux envRef (envDefine store envRef p v) ps args (i + 1)

/-- The mutually recursive evaluation functions of Interpreter, gathered
in one record so that the whole evaluator is a single structural recursion
on fuel (`evalF`). -/
structure EvalFns where
  exprF : InterpState → Expr → EvalRes Value
  argsF : InterpState → List Expr → EvalRes (List Value)
  calleeF : InterpState → Value → List Value → EvalRes Value
  stmtF : InterpState → Statement → EvalRes Unit
  stmtsF : InterpState → List Statement → EvalRes Unit

/-- The evaluator of src/interpreter.rs, indexed by fuel: every recursive
call steps down one fuel level, and fuel exhaustion is `diverge`.

* `exprF` is Interpreter::evaluate_expression (with
  Interpreter::evaluate_binary_op inlined in the Binary arm);
* `argsF` is the argument-evaluation loop of the Call arm;
* `calleeF` is the dispatch on the evaluated callee in the Call arm: the
  Rust code runs the body with a brand-new `Interpreter { env }` whose
  heap (the `Rc` cells) and stdout are shared with the caller, so here the
  store and output thread through while the caller's `env` is restored;
* `stmtF` is Interpreter::evaluate_statement — note that the Block arm
  swaps in the fresh environment and never restores the previous one, on
  any path, exactly as the source does;
* `stmtsF` is Interpreter::evaluate.

The one native function, `clock`, returns the wall-clock time; the clock
is outside the model, so its result is modelled as the unspecified
constant `Number 0`. -/
def evalF : Nat → EvalFns
  | 0 =>
    ⟨fun _ _ => .diverge, fun _ _ => .diverge, fun _ _ _ => .diverge,
     fun _ _ => .diverge, fun _ _ => .diverge⟩
  | fuel + 1 =>
    { exprF := fun s e =>
        match e with
        | .Binary left right op =>
          match (evalF fuel).exprF s left with
          | .ok l s1 =>
            match (evalF fuel).exprF s1 right with
            | .ok r s2 =>
              match applyBinOp l op r with
              | .ok v => .ok v s2
              | .error err => .err err s2
            | .err err s2 => .err err s2
            | .diverge => .diverge
            | .panicked => .panicked
          | .err err s1 => .err err s1
          | .diverge => .diverge
          | .panicked => .panicked
        | .Unary _ _ => .panicked
        | .Literal lit =>
          match lit with
          | .Number num => .ok (.Number num) s
          | .String str => .ok (.String str) s
          | .Boolean b => .ok (.Bool b) s
          | .Nil => .ok .Nil s
        | .Variable token =>
          match envGet s.store s.env (lexemeName token) with
          | none => .ok .Nil s
          | some value => .ok value s
        | .Assignment name expr =>
          match (evalF fuel).exprF s expr with
          | .ok value s1 =>
            match envAssign s1.store s1.env name value with
            | .ok store1 => .ok .Nil { s1 with store := store1 }
            | .error err => .err err s1
          | .err err s1 => .err err s1
          | .diverge => .diverge
          | .panicked => .panicked
        | .Call expr args =>
          match (evalF fuel).exprF s expr with
          | .ok callee s1 =>
            match (evalF fuel).argsF s1 args with
            | .ok evaluated_args s2 => (evalF fuel).calleeF s2 callee evaluated_args
            | .err err s2 => .err err s2
            | .diverge => .diverge
            | .panicked => .panicked
          | .err err s1 => .err err s1
          | .diverge => .diverge
          | .panicked => .panicked
      argsF := fun s args =>
        match args with
        | [] => .ok [] s
        | arg :: rest =>
          match (evalF fuel).exprF s arg with
          | .ok value s1 =>
            match (evalF fuel).argsF s1 rest with
            | .ok values s2 => .ok (value :: values) s2
            | .err err s2 => .err err s2
            | .diverge => .diverge
            | .panicked => .panicked
          | .err err s1 => .err err s1
          | .diverge => .diverge
          | .panicked => .panicked
      calleeF := fun s callee evaluated_args =>
        match callee with
        | .NativeFunction name =>
          if name = "clock" then .ok (.Number 0) s else .err .InvalidFunction s
        | .Function _ params body closure =>
          let envRef := s.store.length
          let store1 := s.store ++ [⟨[], some closure⟩]
          match bindParamsAux envRef store1 params evaluated_args 0 with
          | none => .panicked
          | some store2 =>
            match (evalF fuel).stmtsF ⟨store2, envRef, s.output⟩ body with
            | .ok _ s2 => .ok .Nil { s2 with env := s.env }
            | .err (.Return value) s2 => .ok value { s2 with env := s.env }
            | .err err s2 => .err err { s2 with env := s.env }
            | .diverge => .diverge
            | .panicked => .panicked
        | _ => .err .InvalidFunction s
      stmtF := fun s statement =>
        match statement with
        | .Expression expr =>
          match (evalF fuel).exprF s expr with
          | .ok _ s1 => .ok () s1
          | .err err s1 => .err err s1
          | .diverge => .diverge
          | .panicked => .panicked
        | .Print expr =>
          match (evalF fuel).exprF s expr with
          | .ok value s1 => .ok () { s1 with output := s1.output ++ [value] }
          | .err err s1 => .err err s1
          | .diverge => .diverge
          | .panicked => .panicked
        | .Declaration name expr =>
          match expr with
          | none => .ok () { s with store := envDefine s.store s.env (lexemeName name) .Nil }
          | some expr =>
            match (evalF fuel).exprF s expr with
            | .ok value s1 =>
              .ok () { s1 with store := envDefine s1.store s1.env (lexemeName name) value }
            | .err err s1 => .err err s1
            | .diverge => .diverge
            | .panicked => .panicked
        | .Block statements =>
          let envRef := s.store.length
          let store1 := s.store ++ [⟨[], some s.env⟩]
          (evalF fuel).stmtsF ⟨store1, envRef, s.output⟩ statements
        | .If condition then_branch else_branch =>
          match (evalF fuel).exprF s condition with
          | .ok cond s1 =>
            match cond with
            | .Bool true => (evalF fuel).stmtF s1 then_branch
            | _ =>
              match else_branch with
              | some els => (evalF fuel).stmtF s1 els
              | none => .ok () s1
          | .err err s1 => .err err s1
          | .diverge => .diverge
          | .panicked => .panicked
        | .Function name params block =>
          let fname := lexemeName name
          let function : Value := .Function fname (params.map lexemeName) block s.env
          .ok () { s with store := envDefine s.store s.env fname function }
        | .Return _ return_value =>
          match return_value with
          | none => .err (.Return .Nil) s
          | some expr =>
            match (evalF fuel).exprF s expr with
            | .ok value s1 => .err (.Return value) s1
            | .err err s1 => .err err s1
            | .diverge => .diverge
            | .panicked => .panicked
      stmtsF := fun s statements =>
        match statements with
        | [] => .ok () s
        | statement :: rest =>
          match (evalF fuel).stmtF s statement with
          | .ok _ s1 => (evalF fuel).stmtsF s1 rest
          | .err err s1 => .err err s1
          | .diverge => .diverge
          | .panicked => .panicked }

/-- Interpreter::evaluate_expression. -/
def evalExpr (fuel : Nat) : InterpState → Expr → EvalRes Value := (evalF fuel).exprF

/-- The argument-evaluation loop of the Call arm. -/
def evalArgs (fuel : Nat) : InterpState → List Expr → EvalRes (List Value) := (evalF fuel).argsF

/-- The callee dispatch of the Call arm. -/
def evalCallee (fuel : Nat) : InterpState → Value → List Value → EvalRes Value :=
  (evalF fuel).calleeF

/-- Interpreter::evaluate_statement. -/
def evalStmt (fuel : Nat) : InterpState → Statement → EvalRes Unit := (evalF fuel).stmtF

/-- Interpreter::evaluate. -/
def evalStmts (fuel : Nat) : InterpState → List Statement → EvalRes Unit := (evalF fuel).stmtsF

/-- Interpreter::new: a single global environment in the store, with
`clock` defined as a native function; no output yet. -/
def initState : InterpState :=
  ⟨[⟨[("clock", .NativeFunction "clock")], none⟩], 0, []⟩

/-- Run a program from a fresh interpreter. The fixed fuel is ample for
every concrete program evaluated in this development. -/
def runProgram (prog : List Statement) : EvalRes Unit := evalStmts 200 initState prog

/-- The trace of printed values of a program that runs to completion. -/
def runOutput (prog : List Statement) : Option (List Value) :=
  match runProgram prog with
  | .ok _ s => some s.output
  | _ => none

/-- The runtime error surfaced to the driver, when the program ends in one. -/
def runError (prog : List Statement) : Option RuntimeError :=
  match runProgram prog with
  | .err e _ => some e
  | _ => none

/-- An identifier token as the parser produces it (only the lexeme matters
to evaluation). -/
def identTok (name : String) : Token := ⟨.Identifier, name.data, 0, none, 0⟩

/-! ## Scanner (src/scanner.rs)

Source bytes (`Vec<u8>`) are modelled as a `List Char`, one `Char` per
byte (exact for ASCII; the code reads each byte with `as char`).
The scanner's while loops run off the end of input in two places
(unterminated string literals and comments not ended by a newline):
`peek` returns `'\0'` past the end, which matches neither terminator, so
`current` is incremented forever. Those loops are modelled with fuel that
is always sufficient when the terminator exists; a missing terminator
yields `none`, which models the Rust code never terminating. -/

/-- Scanner::peek / Scanner::peek_next: the byte at `i`, or `'\0'` past
the end of input. -/
def peekAt (source : List Char) (i : Nat) : Char := (source[i]?).getD (Char.ofNat 0)

/-- Scanner state from src/scanner.rs. The keyword table is the constant
`keywordLookup` below. The `u16` line counter is modelled as `Nat`. -/
structure Scanner where
  current : Nat
  start : Nat
  tokens : List Token
  source : List Char
  line : Nat
deriving Repr

/-- The contiguous source slice from index `a` (inclusive) to `b`
(exclusive): `source[a..b]`. -/
def sliceList (xs : List Char) (a b : Nat) : List Char := (xs.drop a).take (b - a)

/-- Scanner::add_token_with_literal: push a token whose lexeme is
`source[start..current]`, with the current line and `column = start`. -/
def addTokenWithLiteral (s : Scanner) (token : TokenType) (literal : Option Literal) : Scanner :=
  { s with tokens :=
      s.tokens ++ [⟨token, sliceList s.source s.start s.current, s.line, literal, s.start⟩] }

/-- Scanner::add_token. -/
def addToken (s : Scanner) (token : TokenType) : Scanner := addTokenWithLiteral s token none

/-- Scanner::add_double_token: a two-char token if the next byte is
`next_char`, else the one-char token. -/
def addDoubleToken (s : Scanner) (next_char : Char) (lhs rhs : TokenType) : Scanner :=
  if peekAt s.source s.current = next_char then
    addToken { s with current := s.current + 1 } lhs
  else addToken s rhs

/-- The index of the next `'"'` at or after `i`, if one occurs before the
end of input: where the string-literal loop of Scanner::add_string_literal
stops. `none` means the loop advances past end-of-input forever. -/
def stringEndFuel (source : List Char) : Nat → Nat → Option Nat
  | 0, _ => none
  | fuel + 1, i =>
    if peekAt source i = '"' then some i
    else if i < source.length then stringEndFuel source fuel (i + 1)
    else none

/-- `stringEndFuel` at its always-sufficient fuel. -/
def stringEnd (source : List Char) (i : Nat) : Option Nat :=
  stringEndFuel source (source.length + 1) i

/-- The index of the next `'\n'` at or after `i`, if one occurs before the
end of input: where the comment loop of Scanner::scan_next stops (the
newline itself is not consumed). `none` means the loop advances past
end-of-input forever. -/
def commentEndFuel (source : List Char) : Nat → Nat → Option Nat
  | 0, _ => none
  | fuel + 1, i =>
    if peekAt source i = '\n' then some i
    else if i < source.length then commentEndFuel source fuel (i + 1)
    else none

/-- `commentEndFuel` at its always-sufficient fuel. -/
def commentEnd (source : List Char) (i : Nat) : Option Nat :=
  commentEndFuel source (source.length + 1) i

/-- The index just past the run of decimal digits starting at `i`
(`while self.peek().is_digit(10) { self.advance() }`; `peek` past the end
is `'\0'`, not a digit, so this loop always terminates). -/
def digitsEndFuel (source : List Char) : Nat → Nat → Nat
  | 0, i => i
  | fuel + 1, i => if (peekAt source i).isDigit then digitsEndFuel source fuel (i + 1) else i

/-- `digitsEndFuel` at its always-sufficient fuel. -/
def digitsEnd (source : List Char) (i : Nat) : Nat :=
  digitsEndFuel source (source.length + 1) i

/-- Where Scanner::add_number_literal stops consuming, starting after the
first digit: a run of digits, then optionally a `'.'` followed by at least
one digit and the following run of digits. -/
def numberEnd (source : List Char) (i : Nat) : Nat :=
  let j := digitsEnd source i
  if peekAt source j = '.' ∧ (peekAt source (j + 1)).isDigit then digitsEnd source (j + 1)
  else j

/-- The index just past the run of alphanumeric bytes starting at `i`
(the identifier loop; `is_alphanumeric` modelled for ASCII bytes). -/
def alnumEndFuel (source : List Char) : Nat → Nat → Nat
  | 0, i => i
  | fuel + 1, i => if (peekAt source i).isAlphanum then alnumEndFuel source fuel (i + 1) else i

/-- `alnumEndFuel` at its always-sufficient fuel. -/
def alnumEnd (source : List Char) (i : Nat) : Nat :=
  alnumEndFuel source (source.length + 1) i

/-- The number of digits-and-dot characters, as the exact rational value
of the decimal literal they spell (`str.parse::<f64>()`; IEEE-754
rounding is outside the model). -/
def digitsToNat (cs : List Char) : Nat := cs.foldl (fun n c => 10 * n + (c.toNat - 48)) 0

/-- The exact value of a decimal literal `digits[.digits]`. -/
def parseDecimal (cs : List Char) : ℚ :=
  let intPart := cs.takeWhile Char.isDigit
  let rest := cs.dropWhile Char.isDigit
  let frac := match rest with
    | '.' :: ds => ds
    | _ => []
  (digitsToNat intPart : ℚ) + (digitsToNat frac : ℚ) / ((10 : ℚ) ^ frac.length)

/-- The keyword table of Scanner::new. -/
def keywords : List (String × TokenType) :=
  [("and", .And), ("class", .Class), ("else", .Else), ("false", .False),
   ("for", .For), ("fun", .Fun), ("if", .If), ("nil", .Nil), ("or", .Or),
   ("print", .Print), ("return", .Return), ("super", .Super), ("this", .This),
   ("true", .True), ("var", .Var), ("while", .While)]

/-- Keyword lookup on the scanned lexeme. -/
def keywordLookup (str : String) : Option TokenType :=
  (keywords.find? (fun kv => kv.1 = str)).map (fun kv => kv.2)

/-- Scanner::add_string_literal, after the opening `'"'` has been
consumed (so `s.current = s.start + 1`): find the closing quote, count
the newlines passed over, consume through the closing quote, and emit a
`String` token whose literal is the decoded interior. `none` models the
loop running off the end on an unterminated string. -/
def addStringLiteral (s : Scanner) : Option Scanner :=
  match stringEnd s.source s.current with
  | none => none
  | some j =>
    let s1 : Scanner :=
      { s with current := j + 1,
               line := s.line + (sliceList s.source s.current j).count '\n' }
    some (addTokenWithLiteral s1 .String
      (some (.String (String.mk (sliceList s1.source (s1.start + 1) (s1.current - 1))))))

/-- Scanner::add_number_literal, after the first digit has been
consumed. -/
def addNumberLiteral (s : Scanner) : Scanner :=
  let s1 : Scanner := { s with current := numberEnd s.source s.current }
  addTokenWithLiteral s1 .Number
    (some (.Number (parseDecimal (sliceList s1.source s1.start s1.current))))

/-- Scanner::add_identifier, after the first byte has been consumed:
consume the alphanumeric run, then emit the keyword token or an
`Identifier`. -/
def addIdentifier (s : Scanner) : Scanner :=
  let s1 : Scanner := { s with current := alnumEnd s.source s.current }
  match keywordLookup (String.mk (sliceList s1.source s1.start s1.current)) with
  | some t => addToken s1 t
  | none => addToken s1 .Identifier

/-- Scanner::scan_next: read the byte at `current`, set
`start := current`, advance, and dispatch. `none` models the two loops
that never terminate (unterminated string, comment not ended by a
newline). The branch order follows the Rust match arms; the
unrecognised-byte arm prints a diagnostic and emits nothing. -/
def scanNext (s : Scanner) : Option Scanner :=
  match s.source[s.current]? with
  | none => none
  | some c =>
    let s1 : Scanner := { s with start := s.current, current := s.current + 1 }
    if c = ';' then some (addToken s1 .Semicolon)
    else if c = '{' then some (addToken s1 .LeftBrace)
    else if c = '}' then some (addToken s1 .RightBrace)
    else if c = '(' then some (addToken s1 .LeftParen)
    else if c = ')' then some (addToken s1 .RightParen)
    else if c = ',' then some (addToken s1 .Comma)
    else if c = '.' then some (addToken s1 .Dot)
    else if c = '-' then some (addToken s1 .Minus)
    else if c = '+' then some (addToken s1 .Plus)
    else if c = '*' then some (addToken s1 .Star)
    else if c = '=' then some (addDoubleToken s1 '=' .EqualEqual .Equal)
    else if c = '!' then some (addDoubleToken s1 '=' .BangEqual .Bang)
    else if c = '>' then some (addDoubleToken s1 '=' .GreaterEqual .Greater)
    else if c = '<' then some (addDoubleToken s1 '=' .LessEqual .Less)
    else if c = '"' then addStringLiteral s1
    else if c = '/' then
      if peekAt s1.source s1.current ≠ '/' then some (addToken s1 .Slash)
      else (commentEnd s1.source s1.current).map (fun j => { s1 with current := j })
    else if c = '\n' then some { s1 with line := s1.line + 1 }
    else if c = ' ' then some s1
    else if c = '\t' then some s1
    else if c = '\r' then some s1
    else if c.isDigit then some (addNumberLiteral s1)
    else if c.isAlphanum then some (addIdentifier s1)
    else some s1

/-- Scanner::scan: repeat `scan_next` while `current < source.len()`,
then append the `EOF` token (whose lexeme is `source[start..current]`
for the *stale* `start` left over from the last `scan_next`). The fuel
counts loop iterations; since every `scan_next` advances `current` by at
least one, `source.length + 1` (used by `scan`) is always enough. -/
def scanLoop : Nat → Scanner → Option Scanner
  | 0, _ => none
  | fuel + 1, s =>
    if s.current < s.source.length then
      match scanNext s with
      | none => none
      | some s1 => scanLoop fuel s1
    else some (addToken s .EOF)

/-- Scanner::new followed by Scanner::scan, returning the token vector;
`none` models a scan that never terminates. -/
def scan (input : List Char) : Option (List Token) :=
  (scanLoop (input.length + 1) ⟨0, 0, [], input, 0⟩).map (fun s => s.tokens)

/-! ## Character-level view of what the scanner keeps and skips -/

/-- The concatenation of the lexemes of a token list, in order. -/
def concatLex (tokens : List Token) : List Char := (tokens.map (fun t => t.lexeme)).flatten

/-- The claim's comparison text, read literally: the source with
whitespace (space, tab, carriage return, newline) and `//`-comments
(through the end of their line) removed. The Bool flag is true while
inside a comment. -/
def stripWCAux : Bool → List Char → List Char
  | _, [] => []
  | true, c :: rest => if c = '\n' then stripWCAux false rest else stripWCAux true rest
  | false, '/' :: '/' :: rest => stripWCAux true rest
  | false, c :: rest =>
    if c = ' ' ∨ c = '\t' ∨ c = '\r' ∨ c = '\n' then stripWCAux false rest
    else c :: stripWCAux false rest

/-- The source with whitespace and comments removed (the right-hand side
of the round-trip property as the specification words it). -/
def stripWsComments (source : List Char) : List Char := stripWCAux false source

/-- The source with exactly the characters the scanner skips removed:
whitespace and comments occurring outside string literals, and
unrecognised bytes. Characters kept by some token (including whitespace
inside string literals) are retained. `none` models the inputs on which
scanning never terminates. The chunk boundaries (`stringEnd`,
`commentEnd`, `numberEnd`, `alnumEnd`) are those of the scanner; the fuel
counts scanner iterations. -/
def stripLoop (source : List Char) : Nat → Nat → Option (List Char)
  | 0, _ => none
  | fuel + 1, i =>
    match source[i]? with
    | none => some []
    | some c =>
      if c = ';' then (sliceList source i (i + 1) ++ ·) <$> stripLoop source fuel (i + 1)
      else if c = '{' then (sliceList source i (i + 1) ++ ·) <$> stripLoop source fuel (i + 1)
      else if c = '}' then (sliceList source i (i + 1) ++ ·) <$> stripLoop source fuel (i + 1)
      else if c = '(' then (sliceList source i (i + 1) ++ ·) <$> stripLoop source fuel (i + 1)
      else if c = ')' then (sliceList source i (i + 1) ++ ·) <$> stripLoop source fuel (i + 1)
      else if c = ',' then (sliceList source i (i + 1) ++ ·) <$> stripLoop source fuel (i + 1)
      else if c = '.' then (sliceList source i (i + 1) ++ ·) <$> stripLoop source fuel (i + 1)
      else if c = '-' then (sliceList source i (i + 1) ++ ·) <$> stripLoop source fuel (i + 1)
      else if c = '+' then (sliceList source i (i + 1) ++ ·) <$> stripLoop source fuel (i + 1)
      else if c = '*' then (sliceList source i (i + 1) ++ ·) <$> stripLoop source fuel (i + 1)
      else if c = '=' ∨ c = '!' ∨ c = '>' ∨ c = '<' then
        if peekAt source (i + 1) = '=' then
          (sliceList source i (i + 2) ++ ·) <$> stripLoop source fuel (i + 2)
        else (sliceList source i (i + 1) ++ ·) <$> stripLoop source fuel (i + 1)
      else if c = '"' then
        match stringEnd source (i + 1) with
        | none => none
        | some j => (sliceList source i (j + 1) ++ ·) <$> stripLoop source fuel (j + 1)
      else if c = '/' then
        if peekAt source (i + 1) ≠ '/' then
          (sliceList source i (i + 1) ++ ·) <$> stripLoop source fuel (i + 1)
        else
          match commentEnd source (i + 1) with
          | none => none
          | some j => stripLoop source fuel j
      else if c = '\n' then stripLoop source fuel (i + 1)
      else if c = ' ' then stripLoop source fuel (i + 1)
      else if c = '\t' then stripLoop source fuel (i + 1)
      else if c = '\r' then stripLoop source fuel (i + 1)
      else if c.isDigit then
        let j := numberEnd source (i + 1)
        (sliceList source i j ++ ·) <$> stripLoop source fuel j
      else if c.isAlphanum then
        let j := alnumEnd source (i + 1)
        (sliceList source i j ++ ·) <$> stripLoop source fuel j
      else stripLoop source fuel (i + 1)

/-- `stripLoop` over the whole source, at the fuel used by `scan`. -/
def stripScanned (source : List Char) : Option (List Char) :=
  stripLoop source (source.length + 1) 0

/-! ## Concrete programs from the specification, as the parser's ASTs -/

/-- The AST of `var a = 4; { var a = 5; print a; } print a;`. -/
def scopeProgram : List Statement :=
  [ .Declaration (identTok "a") (some (.Literal (.Number 4))),
    .Block [ .Declaration (identTok "a") (some (.Literal (.Number 5))),
             .Print (.Variable (identTok "a")) ],
    .Print (.Variable (identTok "a")) ]

/-- The AST of the counter program
`fun makeCounter(){ var i = 0; fun count(){ i = i + 1; print i; } return count; }
var c = makeCounter(); c(); c();` (function bodies are stored as flat
statement lists, as the parser produces them). -/
def counterProgram : List Statement :=
  [ .Function (identTok "makeCounter") []
      [ .Declaration (identTok "i") (some (.Literal (.Number 0))),
        .Function (identTok "count") []
          [ .Expression (.Assignment "i"
              (.Binary (.Variable (identTok "i")) (.Literal (.Number 1)) .Plus)),
            .Print (.Variable (identTok "i")) ],
        .Return (identTok "return") (some (.Variable (identTok "count"))) ],
    .Declaration (identTok "c") (some (.Call (.Variable (identTok "makeCounter")) [])),
    .Expression (.Call (.Variable (identTok "c")) []),
    .Expression (.Call (.Variable (identTok "c")) []) ]

/-- The AST of the top-level `return 1;`. -/
def returnProgram : List Statement :=
  [ .Return (identTok "return") (some (.Literal (.Number 1))) ]

/-- The AST of `fun f(){ return 1; print 2; } print f();`. -/
def returnStopsProgram : List Statement :=
  [ .Function (identTok "f") []
      [ .Return (identTok "return") (some (.Literal (.Number 1))),
        .Print (.Literal (.Number 2)) ],
    .Print (.Call (.Variable (identTok "f")) []) ]

/-- The AST of `fun f(){ x = 1; } f();` (assignment to an undefined name
inside a function body). -/
def errPropProgram : List Statement :=
  [ .Function (identTok "f") [] [ .Expression (.Assignment "x" (.Literal (.Number 1))) ],
    .Expression (.Call (.Variable (identTok "f")) []) ]

/-- The AST of `fun f(a, b) {} f(1);` (fewer arguments than parameters). -/
def arityPanicProgram : List Statement :=
  [ .Function (identTok "f") [identTok "a", identTok "b"] [],
    .Expression (.Call (.Variable (identTok "f")) [.Literal (.Number 1)]) ]

/-- The AST of `fun f(a) { print a; } f(1, 2);` (more arguments than
parameters). -/
def extraArgsProgram : List Statement :=
  [ .Function (identTok "f") [identTok "a"] [ .Print (.Variable (identTok "a")) ],
    .Expression (.Call (.Variable (identTok "f")) [.Literal (.Number 1), .Literal (.Number 2)]) ]

/-! ## Helper lemmas -/

/-- The keyword table never yields the EOF token type. -/
theorem keywordLookup_ne_EOF (str : String) (t : TokenType) (h : keywordLookup str = some t) :
    t ≠ TokenType.EOF := by
  rcases hf : keywords.find? (fun kv => kv.1 = str) with _ | kv
  · simp [keywordLookup, hf] at h
  · have hmem : kv ∈ keywords := List.mem_of_find?_eq_some hf
    have ht : t = kv.2 := by
      simp only [keywordLookup, hf, Option.map_some'] at h
      exact (Option.some.injEq _ _).mp h.symm
    subst ht
    simp only [keywords, List.mem_cons, List.not_mem_nil, or_false] at hmem
    rcases hmem with rfl|rfl|rfl|rfl|rfl|rfl|rfl|rfl|rfl|rfl|rfl|rfl|rfl|rfl|rfl|rfl <;> decide

theorem concatLex_singleton (t : Token) : concatLex [t] = t.lexeme := by
  simp [concatLex]

theorem map_concatLex_nil (o : Option (List Char)) :
    Option.map (fun r => concatLex [] ++ r) o = o := by
  cases o <;> simp [concatLex]

theorem concatLex_append (a b : List Token) : concatLex (a ++ b) = concatLex a ++ concatLex b := by
  simp [concatLex]

/-- One scanner step against one strip step: a step either ends both
(the two diverging loops), or consumes a chunk, emitting no token (the
chunk is skipped by `stripLoop`) or exactly one non-EOF token whose
lexeme is precisely the chunk `stripLoop` keeps. -/
theorem scanNext_strip (s : Scanner) (fuel : Nat) (h : s.current < s.source.length) :
    (scanNext s = none → stripLoop s.source (fuel + 1) s.current = none) ∧
    (∀ s2, scanNext s = some s2 →
      s2.source = s.source ∧
      ∃ ts, s2.tokens = s.tokens ++ ts ∧ (∀ t ∈ ts, t.token_type ≠ TokenType.EOF) ∧
        stripLoop s.source (fuel + 1) s.current =
          Option.map (fun r => concatLex ts ++ r) (stripLoop s.source fuel s2.current)) := by
  obtain ⟨c, hc⟩ : ∃ c, s.source[s.current]? = some c :=
    ⟨_, List.getElem?_eq_getElem h⟩
  simp only [scanNext, stripLoop, hc]
  by_cases h1 : c = ';'
  · subst h1
    simp only [reduceIte]
    refine ⟨by simp, ?_⟩
    rintro s2 hs2
    cases hs2
    refine ⟨rfl, [⟨.Semicolon, sliceList s.source s.current (s.current + 1), s.line, none, s.current⟩],
      ?_, by simp, ?_⟩
    · simp [addToken, addTokenWithLiteral]
    · simp [concatLex_singleton, addToken, addTokenWithLiteral]
  simp only [if_neg h1]
  by_cases h2 : c = '\x7b'
  · subst h2
    simp only [reduceIte]
    refine ⟨by simp, ?_⟩
    rintro s2 hs2
    cases hs2
    refine ⟨rfl, [⟨.LeftBrace, sliceList s.source s.current (s.current + 1), s.line, none, s.current⟩],
      ?_, by simp, ?_⟩
    · simp [addToken, addTokenWithLiteral]
    · simp [concatLex_singleton, addToken, addTokenWithLiteral]
  simp only [if_neg h2]
  by_cases h3 : c = '\x7d'
  · subst h3
    simp only [reduceIte]
    refine ⟨by simp, ?_⟩
    rintro s2 hs2
    cases hs2
    refine ⟨rfl, [⟨.RightBrace, sliceList s.source s.current (s.current + 1), s.line, none, s.current⟩],
      ?_, by simp, ?_⟩
    · simp [addToken, addTokenWithLiteral]
    · simp [concatLex_singleton, addToken, addTokenWithLiteral]
  simp only [if_neg h3]
  by_cases h4 : c = '('
  · subst h4
    simp only [reduceIte]
    refine ⟨by simp, ?_⟩
    rintro s2 hs2
    cases hs2
    refine ⟨rfl, [⟨.LeftParen, sliceList s.source s.current (s.current + 1), s.line, none, s.current⟩],
      ?_, by simp, ?_⟩
    · simp [addToken, addTokenWithLiteral]
    · simp [concatLex_singleton, addToken, addTokenWithLiteral]
  simp only [if_neg h4]
  by_cases h5 : c = ')'
  · subst h5
    simp only [reduceIte]
    refine ⟨by simp, ?_⟩
    rintro s2 hs2
    cases hs2
    refine ⟨rfl, [⟨.RightParen, sliceList s.source s.current (s.current + 1), s.line, none, s.current⟩],
      ?_, by simp, ?_⟩
    · simp [addToken, addTokenWithLiteral]
    · simp [concatLex_singleton, addToken, addTokenWithLiteral]
  simp only [if_neg h5]
  by_cases h6 : c = ','
  · subst h6
    simp only [reduceIte]
    refine ⟨by simp, ?_⟩
    rintro s2 hs2
    cases hs2
    refine ⟨rfl, [⟨.Comma, sliceList s.source s.current (s.current + 1), s.line, none, s.current⟩],
      ?_, by simp, ?_⟩
    · simp [addToken, addTokenWithLiteral]
    · simp [concatLex_singleton, addToken, addTokenWithLiteral]
  simp only [if_neg h6]
  by_cases h7 : c = '.'
  · subst h7
    simp only [reduceIte]
    refine ⟨by simp, ?_⟩
    rintro s2 hs2
    cases hs2
    refine ⟨rfl, [⟨.Dot, sliceList s.source s.current (s.current + 1), s.line, none, s.current⟩],
      ?_, by simp, ?_⟩
    · simp [addToken, addTokenWithLiteral]
    · simp [concatLex_singleton, addToken, addTokenWithLiteral]
  simp only [if_neg h7]
  by_cases h8 : c = '-'
  · subst h8
    simp only [reduceIte]
    refine ⟨by simp, ?_⟩
    rintro s2 hs2
    cases hs2
    refine ⟨rfl, [⟨.Minus, sliceList s.source s.current (s.current + 1), s.line, none, s.current⟩],
      ?_, by simp, ?_⟩
    · simp [addToken, addTokenWithLiteral]
    · simp [concatLex_singleton, addToken, addTokenWithLiteral]
  simp only [if_neg h8]
  by_cases h9 : c = '+'
  · subst h9
    simp only [reduceIte]
    refine ⟨by simp, ?_⟩
    rintro s2 hs2
    cases hs2
    refine ⟨rfl, [⟨.Plus, sliceList s.source s.current (s.current + 1), s.line, none, s.current⟩],
      ?_, by simp, ?_⟩
    · simp [addToken, addTokenWithLiteral]
    · simp [concatLex_singleton, addToken, addTokenWithLiteral]
  simp only [if_neg h9]
  by_cases h10 : c = '*'
  · subst h10
    simp only [reduceIte]
    refine ⟨by simp, ?_⟩
    rintro s2 hs2
    cases hs2
    refine ⟨rfl, [⟨.Star, sliceList s.source s.current (s.current + 1), s.line, none, s.current⟩],
      ?_, by simp, ?_⟩
    · simp [addToken, addTokenWithLiteral]
    · simp [concatLex_singleton, addToken, addTokenWithLiteral]
  simp only [if_neg h10]
  by_cases h11 : c = '='
  · subst h11
    simp only [reduceIte, addDoubleToken, true_or, false_or, or_true, if_true]
    by_cases hp : peekAt s.source (s.current + 1) = '='
    · simp only [if_pos hp]
      refine ⟨by simp, ?_⟩
      rintro s2 hs2
      cases hs2
      refine ⟨rfl, [⟨.EqualEqual, sliceList s.source s.current (s.current + 2), s.line, none, s.current⟩],
        ?_, by simp, ?_⟩
      · simp [addToken, addTokenWithLiteral]
      · simp [concatLex_singleton, addToken, addTokenWithLiteral]
    · simp only [if_neg hp]
      refine ⟨by simp, ?_⟩
      rintro s2 hs2
      cases hs2
      refine ⟨rfl, [⟨.Equal, sliceList s.source s.current (s.current + 1), s.line, none, s.current⟩],
        ?_, by simp, ?_⟩
      · simp [addToken, addTokenWithLiteral]
      · simp [concatLex_singleton, addToken, addTokenWithLiteral]
  simp only [if_neg h11]
  by_cases h12 : c = '!'
  · subst h12
    simp only [reduceIte, addDoubleToken, true_or, false_or, or_true, if_true]
    by_cases hp : peekAt s.source (s.current + 1) = '='
    · simp only [if_pos hp]
      refine ⟨by simp, ?_⟩
      rintro s2 hs2
      cases hs2
      refine ⟨rfl, [⟨.BangEqual, sliceList s.source s.current (s.current + 2), s.line, none, s.current⟩],
        ?_, by simp, ?_⟩
      · simp [addToken, addTokenWithLiteral]
      · simp [concatLex_singleton, addToken, addTokenWithLiteral]
    · simp only [if_neg hp]
      refine ⟨by simp, ?_⟩
      rintro s2 hs2
      cases hs2
      refine ⟨rfl, [⟨.Bang, sliceList s.source s.current (s.current + 1), s.line, none, s.current⟩],
        ?_, by simp, ?_⟩
      · simp [addToken, addTokenWithLiteral]
      · simp [concatLex_singleton, addToken, addTokenWithLiteral]
  simp only [if_neg h12]
  by_cases h13 : c = '>'
  · subst h13
    simp only [reduceIte, addDoubleToken, true_or, false_or, or_true, if_true]
    by_cases hp : peekAt s.source (s.current + 1) = '='
    · simp only [if_pos hp]
      refine ⟨by simp, ?_⟩
      rintro s2 hs2
      cases hs2
      refine ⟨rfl, [⟨.GreaterEqual, sliceList s.source s.current (s.current + 2), s.line, none, s.current⟩],
        ?_, by simp, ?_⟩
      · simp [addToken, addTokenWithLiteral]
      · simp [concatLex_singleton, addToken, addTokenWithLiteral]
    · simp only [if_neg hp]
      refine ⟨by simp, ?_⟩
      rintro s2 hs2
      cases hs2
      refine ⟨rfl, [⟨.Greater, sliceList s.source s.current (s.current + 1), s.line, none, s.current⟩],
        ?_, by simp, ?_⟩
      · simp [addToken, addTokenWithLiteral]
      · simp [concatLex_singleton, addToken, addTokenWithLiteral]
  simp only [if_neg h13]
  by_cases h14 : c = '<'
  · subst h14
    simp only [reduceIte, addDoubleToken, true_or, false_or, or_true, if_true]
    by_cases hp : peekAt s.source (s.current + 1) = '='
    · simp only [if_pos hp]
      refine ⟨by simp, ?_⟩
      rintro s2 hs2
      cases hs2
      refine ⟨rfl, [⟨.LessEqual, sliceList s.source s.current (s.current + 2), s.line, none, s.current⟩],
        ?_, by simp, ?_⟩
      · simp [addToken, addTokenWithLiteral]
      · simp [concatLex_singleton, addToken, addTokenWithLiteral]
    · simp only [if_neg hp]
      refine ⟨by simp, ?_⟩
      rintro s2 hs2
      cases hs2
      refine ⟨rfl, [⟨.Less, sliceList s.source s.current (s.current + 1), s.line, none, s.current⟩],
        ?_, by simp, ?_⟩
      · simp [addToken, addTokenWithLiteral]
      · simp [concatLex_singleton, addToken, addTokenWithLiteral]
  simp only [if_neg h14]
  have hnor : ¬(c = '=' ∨ c = '!' ∨ c = '>' ∨ c = '<') := by
    rintro (h' | h' | h' | h') <;> [exact h11 h'; exact h12 h'; exact h13 h'; exact h14 h']
  simp only [if_neg hnor]
  by_cases h15 : c = '"'
  · subst h15
    simp only [reduceIte, addStringLiteral]
    rcases hse : stringEnd s.source (s.current + 1) with _ | j <;> simp only [hse]
    · exact ⟨by simp, by rintro s2 ⟨⟩⟩
    · refine ⟨by simp, ?_⟩
      rintro s2 hs2
      cases hs2
      refine ⟨rfl, _, rfl, by simp, ?_⟩
      simp [concatLex_singleton, addTokenWithLiteral]
  simp only [if_neg h15]
  by_cases h16 : c = '/'
  · subst h16
    simp only [reduceIte]
    by_cases hp : peekAt s.source (s.current + 1) = '/'
    · rw [if_neg (not_not.mpr hp), if_neg (not_not.mpr hp)]
      rcases hce : commentEnd s.source (s.current + 1) with _ | j <;>
        simp only [hce, Option.map_some', Option.map_none']
      · exact ⟨by simp, by rintro s2 ⟨⟩⟩
      · refine ⟨by simp, ?_⟩
        rintro s2 hs2
        cases hs2
        refine ⟨rfl, [], by simp, by simp, ?_⟩
        simp [map_concatLex_nil]
    · rw [if_pos hp, if_pos hp]
      refine ⟨by simp, ?_⟩
      rintro s2 hs2
      cases hs2
      refine ⟨rfl, _, rfl, by simp [addToken, addTokenWithLiteral], ?_⟩
      simp [concatLex_singleton, addToken, addTokenWithLiteral]
  simp only [if_neg h16]
  by_cases h17 : c = '\n'
  · subst h17
    simp only [reduceIte]
    refine ⟨by simp, ?_⟩
    rintro s2 hs2
    cases hs2
    refine ⟨rfl, [], by simp, by simp, ?_⟩
    rw [map_concatLex_nil]
  simp only [if_neg h17]
  by_cases h18 : c = ' '
  · subst h18
    simp only [reduceIte]
    refine ⟨by simp, ?_⟩
    rintro s2 hs2
    cases hs2
    refine ⟨rfl, [], by simp, by simp, ?_⟩
    rw [map_concatLex_nil]
  simp only [if_neg h18]
  by_cases h19 : c = '\t'
  · subst h19
    simp only [reduceIte]
    refine ⟨by simp, ?_⟩
    rintro s2 hs2
    cases hs2
    refine ⟨rfl, [], by simp, by simp, ?_⟩
    rw [map_concatLex_nil]
  simp only [if_neg h19]
  by_cases h20 : c = '\r'
  · subst h20
    simp only [reduceIte]
    refine ⟨by simp, ?_⟩
    rintro s2 hs2
    cases hs2
    refine ⟨rfl, [], by simp, by simp, ?_⟩
    rw [map_concatLex_nil]
  simp only [if_neg h20]
  by_cases h21 : c.isDigit
  · simp only [h21, if_true, addNumberLiteral]
    refine ⟨by simp, ?_⟩
    rintro s2 hs2
    cases hs2
    refine ⟨rfl, _, rfl, by simp, ?_⟩
    simp [concatLex_singleton, addTokenWithLiteral]
  simp only [Bool.not_eq_true] at h21
  simp only [h21, Bool.false_eq_true, if_false]
  by_cases h22 : c.isAlphanum
  · simp only [h22, if_true, addIdentifier]
    rcases hk : keywordLookup (String.mk (sliceList s.source s.current (alnumEnd s.source (s.current + 1)))) with _ | t <;>
      simp only [hk]
    · refine ⟨by simp, ?_⟩
      rintro s2 hs2
      cases hs2
      refine ⟨rfl, _, rfl, by simp [addToken, addTokenWithLiteral], ?_⟩
      simp [concatLex_singleton, addToken, addTokenWithLiteral]
    · refine ⟨by simp, ?_⟩
      rintro s2 hs2
      cases hs2
      refine ⟨rfl, _, rfl, ?_, ?_⟩
      · simp only [addToken, addTokenWithLiteral]
        intro u hu
        simp only [List.mem_singleton] at hu
        subst hu
        exact keywordLookup_ne_EOF _ _ hk
      · simp [concatLex_singleton, addToken, addTokenWithLiteral]
  simp only [Bool.not_eq_true] at h22
  simp only [h22, Bool.false_eq_true, if_false]
  refine ⟨by simp, ?_⟩
  rintro s2 hs2
  cases hs2
  refine ⟨rfl, [], by simp, by simp, ?_⟩
  rw [map_concatLex_nil]

/-- The scan loop against the strip loop: a terminating scan appends some
non-EOF tokens whose lexemes concatenate to exactly the stripped rest of
the source, followed by a single EOF sentinel. -/
theorem scanLoop_spec : ∀ (fuel : Nat) (s sf : Scanner), scanLoop fuel s = some sf →
    ∃ ts eofTok str, sf.tokens = s.tokens ++ ts ++ [eofTok] ∧
      eofTok.token_type = TokenType.EOF ∧
      (∀ t ∈ ts, t.token_type ≠ TokenType.EOF) ∧
      stripLoop s.source fuel s.current = some str ∧ concatLex ts = str := by
  intro fuel
  induction fuel with
  | zero => intro s sf h; cases h
  | succ fuel ih =>
    intro s sf h
    rw [scanLoop] at h
    by_cases hlt : s.current < s.source.length
    · rw [if_pos hlt] at h
      rcases hsn : scanNext s with _ | s1
      · rw [hsn] at h; cases h
      · rw [hsn] at h
        obtain ⟨ts2, eofTok, str2, htok2, heof2, hne2, hstrip2, hcat2⟩ := ih s1 sf h
        obtain ⟨hsrc, ts1, htok1, hne1, hstrip1⟩ := (scanNext_strip s fuel hlt).2 s1 hsn
        rw [hsrc] at hstrip2
        refine ⟨ts1 ++ ts2, eofTok, concatLex ts1 ++ str2, ?_, heof2, ?_, ?_, ?_⟩
        · rw [htok2, htok1]; simp [List.append_assoc]
        · intro t ht
          rcases List.mem_append.mp ht with h' | h'
          · exact hne1 t h'
          · exact hne2 t h'
        · rw [hstrip1, hstrip2]; rfl
        · rw [concatLex_append, hcat2]
    · rw [if_neg hlt] at h
      cases h
      refine ⟨[], ⟨.EOF, sliceList s.source s.start s.current, s.line, none, s.start⟩, [], ?_, rfl,
        by simp, ?_, rfl⟩
      · simp [addToken, addTokenWithLiteral]
      · rw [stripLoop]
        have : s.source[s.current]? = none := by
          rw [List.getElem?_eq_none_iff]
          exact Nat.le_of_not_lt hlt
        rw [this]

/-- Environment::assign walks exactly to the innermost scope containing
the name (`chainFindFuel`): if no scope in the chain binds the name the
result is `UndefinedVariable` and no environment is touched, otherwise
the innermost binding is overwritten in place. -/
theorem envAssignFuel_spec : ∀ (fuel : Nat) (store : List Environment) (ref : Nat) (name : String)
    (v : Value),
    (chainFindFuel fuel store ref name = none →
      envAssignFuel fuel store ref name v = .error (.UndefinedVariable name)) ∧
    (∀ i, chainFindFuel fuel store ref name = some i →
      ∃ env, store[i]? = some env ∧
        envAssignFuel fuel store ref name v =
          .ok (store.set i { env with bindings := insertBinding env.bindings name v })) := by
  intro fuel
  induction fuel with
  | zero => intro store ref name v; exact ⟨fun _ => rfl, fun i h => by cases h⟩
  | succ fuel ih =>
    intro store ref name v
    rcases hs : store[ref]? with _ | env <;> simp only [chainFindFuel, envAssignFuel, hs]
    · exact ⟨by simp, by simp⟩
    · by_cases hb : (lookupBinding env.bindings name).isSome
      · rw [if_pos hb, if_pos hb]
        refine ⟨by simp, ?_⟩
        rintro i hi
        cases hi
        exact ⟨env, hs, rfl⟩
      · rw [if_neg hb, if_neg hb]
        rcases henc : env.enclosing with _ | p
        · exact ⟨by simp, by simp⟩
        · exact ih store p name v

/-- Environment::get returns the value bound in the innermost scope of
the chain containing the name (`chainFindFuel`), and is absent exactly
when no scope in the chain binds it. -/
theorem envGetFuel_spec : ∀ (fuel : Nat) (store : List Environment) (ref : Nat) (name : String),
    envGetFuel fuel store ref name =
      match chainFindFuel fuel store ref name with
      | none => none
      | some i => store[i]?.bind (fun env => lookupBinding env.bindings name) := by
  intro fuel
  induction fuel with
  | zero => intro store ref name; rfl
  | succ fuel ih =>
    intro store ref name
    rcases hs : store[ref]? with _ | env <;> simp only [chainFindFuel, envGetFuel, hs]
    rcases hb : lookupBinding env.bindings name with _ | v
    · simp only [hb, Option.isSome_none, Bool.false_eq_true, if_false]
      rcases henc : env.enclosing with _ | p <;> simp only [henc]
      exact ih store p name
    · simp [hb, hs]

/-- Parameter binding succeeds whenever there are at least as many
evaluated arguments as parameters, and arguments beyond the parameter
list play no part in it. -/
theorem bindParamsAux_spec : ∀ (params : List String) (args extra : List Value)
    (store : List Environment) (ref i : Nat), i + params.length ≤ args.length →
    (∃ store1, bindParamsAux ref store params args i = some store1) ∧
    bindParamsAux ref store params (args ++ extra) i = bindParamsAux ref store params args i := by
  intro params
  induction params with
  | nil => intro args extra store ref i _; exact ⟨⟨store, rfl⟩, rfl⟩
  | cons p ps ih =>
    intro args extra store ref i hlen
    have hi : i < args.length := by
      simp only [List.length_cons] at hlen
      omega
    have hget : args[i]? = some args[i] := List.getElem?_eq_getElem hi
    have hgetapp : (args ++ extra)[i]? = some args[i] := by
      rw [List.getElem?_append_left hi]
      exact hget
    have hlen2 : (i + 1) + ps.length ≤ args.length := by
      simp only [List.length_cons] at hlen
      omega
    constructor
    · obtain ⟨store1, h1⟩ := (ih args extra (envDefine store ref p args[i]) ref (i + 1) hlen2).1
      exact ⟨store1, by rw [bindParamsAux, hget]; exact h1⟩
    · rw [bindParamsAux, bindParamsAux, hget, hgetapp]
      exact (ih args extra (envDefine store ref p args[i]) ref (i + 1) hlen2).2

/-! ## The claims -/

/-- C1: the claim says Block evaluation restores the previous current
environment on every exit path, so `var a = 4; { var a = 5; print a; }
print a;` prints 5 then 4. The code does not restore the environment on
any path: the Block arm swaps in the fresh environment and returns the
body's result as-is, so after the block the inner scope is still current
and the program prints 5 then 5. The first conjunct exhibits the Block
arm exactly (no restoration wrapper); the second evaluates the claim's
program. -/
theorem c1_block_env_not_restored :
    (∀ (fuel : Nat) (s : InterpState) (stmts : List Statement),
      evalStmt (fuel + 1) s (.Block stmts) =
        evalStmts fuel ⟨s.store ++ [⟨[], some s.env⟩], s.store.length, s.output⟩ stmts) ∧
    runOutput scopeProgram = some [.Number 5, .Number 5] := by
  constructor
  · intro fuel s stmts
    rfl
  · with_unfolding_all rfl

/-- C2: a Function declaration constructs a function value whose closure
is the (shared, store-indexed) environment current at declaration time,
and the counter program prints 1 then 2 because both calls mutate the
same captured environment. -/
theorem c2_closure_capture :
    (∀ (fuel : Nat) (s : InterpState) (name : Token) (params : List Token)
      (block : List Statement),
      evalStmt (fuel + 1) s (.Function name params block) =
        .ok () { s with store := (envDefine s.store s.env (lexemeName name)
          (.Function (lexemeName name) (params.map lexemeName) block s.env)) }) ∧
    runOutput counterProgram = some [.Number 1, .Number 2] := by
  constructor
  · intro fuel s name params block
    rfl
  · with_unfolding_all rfl

/-- C3: `return E;` evaluates E and unwinds as a `Return` signal: the
statement sequencer stops at any error so no later body statements run;
the Call site turns `Return v` from the body into the call's value
`.ok v` while every other error kind passes through the Call unchanged;
and a top-level `return 1;` surfaces `Return(1)` to the driver. -/
theorem c3_return_unwinding :
    (∀ (fuel : Nat) (s s1 : InterpState) (st : Statement) (e : RuntimeError)
      (rest : List Statement),
      evalStmt fuel s st = .err e s1 → evalStmts (fuel + 1) s (st :: rest) = .err e s1) ∧
    (∀ (fuel : Nat) (s s1 : InterpState) (tok : Token) (E : Expr) (v : Value),
      evalExpr fuel s E = .ok v s1 →
      evalStmt (fuel + 1) s (.Return tok (some E)) = .err (.Return v) s1) ∧
    (∀ (fuel : Nat) (s : InterpState) (name : String) (params : List String)
      (body : List Statement) (closure : Nat) (args : List Value) (store2 : List Environment),
      bindParamsAux s.store.length (s.store ++ [⟨[], some closure⟩]) params args 0 = some store2 →
      (∀ (v : Value) (s2 : InterpState),
        evalStmts fuel ⟨store2, s.store.length, s.output⟩ body = .err (.Return v) s2 →
        evalCallee (fuel + 1) s (.Function name params body closure) args =
          .ok v { s2 with env := s.env }) ∧
      (∀ (e : RuntimeError) (s2 : InterpState),
        evalStmts fuel ⟨store2, s.store.length, s.output⟩ body = .err e s2 →
        (∀ v, e ≠ .Return v) →
        evalCallee (fuel + 1) s (.Function name params body closure) args =
          .err e { s2 with env := s.env })) ∧
    runError returnProgram = some (.Return (.Number 1)) ∧
    runOutput returnStopsProgram = some [.Number 1] ∧
    runError errPropProgram = some (.UndefinedVariable "x") := by
  refine ⟨?_, ?_, ?_, ?_, ?_, ?_⟩
  · intro fuel s s1 st e rest h
    simp only [evalStmts, evalF]
    rw [show (evalF fuel).stmtF s st = .err e s1 from h]
  · intro fuel s s1 tok E v h
    simp only [evalStmt, evalF]
    rw [show (evalF fuel).exprF s E = .ok v s1 from h]
  · intro fuel s name params body closure args store2 hbind
    constructor
    · intro v s2 hbody
      simp only [evalCallee, evalF, hbind]
      rw [show (evalF fuel).stmtsF ⟨store2, s.store.length, s.output⟩ body =
        .err (.Return v) s2 from hbody]
    · intro e s2 hbody hne
      simp only [evalCallee, evalF, hbind]
      rw [show (evalF fuel).stmtsF ⟨store2, s.store.length, s.output⟩ body =
        .err e s2 from hbody]
      cases e with
      | Return v => exact absurd rfl (hne v)
      | _ => rfl
  · with_unfolding_all rfl
  · with_unfolding_all rfl
  · with_unfolding_all rfl

/-- Witness for C3 at concrete inputs: a `return;` statement stops a
statement list, `return 7;` signals `Return(7)`, and a call whose body
returns 3 evaluates to 3. -/
theorem c3_return_unwinding_witness :
    evalStmts 2 initState
      [.Return (identTok "return") none, .Print (.Literal (.Number 9))] =
        .err (.Return .Nil) initState ∧
    evalStmt 2 initState (.Return (identTok "return") (some (.Literal (.Number 7)))) =
      .err (.Return (.Number 7)) initState ∧
    evalCallee 6 initState
        (.Function "f" [] [.Return (identTok "return") (some (.Literal (.Number 3)))] 0) [] =
      .ok (.Number 3) ⟨initState.store ++ [⟨[], some 0⟩], 0, []⟩ := by
  refine ⟨?_, ?_, ?_⟩
  · exact c3_return_unwinding.1 1 initState initState (.Return (identTok "return") none)
      (.Return .Nil) [.Print (.Literal (.Number 9))] rfl
  · exact c3_return_unwinding.2.1 1 initState initState (identTok "return")
      (.Literal (.Number 7)) (.Number 7) rfl
  · exact (c3_return_unwinding.2.2.1 5 initState "f" []
      [.Return (identTok "return") (some (.Literal (.Number 3)))] 0 []
      (initState.store ++ [⟨[], some 0⟩]) (by rfl)).1 (.Number 3)
      ⟨initState.store ++ [⟨[], some 0⟩], 1, []⟩ (by rfl)

/-- C4: an Assignment evaluates its right-hand side first, then assigns
through the environment chain: if some environment (innermost first)
binds the name, that binding alone is overwritten (`store.set` at the
innermost index found by `chainFindFuel`) and the expression's value is
Nil; if no environment in the chain binds the name, evaluation fails
with `UndefinedVariable(name)` and the store is returned exactly as the
right-hand side left it — no binding is created anywhere. -/
theorem c4_assignment_semantics :
    (∀ (fuel : Nat) (store : List Environment) (ref : Nat) (name : String) (v : Value),
      (chainFindFuel fuel store ref name = none →
        envAssignFuel fuel store ref name v = .error (.UndefinedVariable name)) ∧
      (∀ i, chainFindFuel fuel store ref name = some i →
        ∃ env, store[i]? = some env ∧
          envAssignFuel fuel store ref name v =
            .ok (store.set i { env with bindings := insertBinding env.bindings name v }))) ∧
    (∀ (fuel : Nat) (s s1 : InterpState) (name : String) (E : Expr) (v : Value),
      evalExpr fuel s E = .ok v s1 →
      evalExpr (fuel + 1) s (.Assignment name E) =
        (match envAssign s1.store s1.env name v with
         | .ok store1 => .ok .Nil { s1 with store := store1 }
         | .error e => .err e s1)) ∧
    (∀ (fuel : Nat) (s s1 : InterpState) (name : String) (E : Expr) (e : RuntimeError),
      evalExpr fuel s E = .err e s1 →
      evalExpr (fuel + 1) s (.Assignment name E) = .err e s1) ∧
    (∀ (fuel : Nat) (s s1 : InterpState) (name : String) (E : Expr) (v : Value),
      evalExpr fuel s E = .ok v s1 → chainFind s1.store s1.env name = none →
      evalExpr (fuel + 1) s (.Assignment name E) = .err (.UndefinedVariable name) s1) := by
  refine ⟨envAssignFuel_spec, ?_, ?_, ?_⟩
  · intro fuel s s1 name E v h
    simp only [evalExpr, evalF]
    rw [show (evalF fuel).exprF s E = .ok v s1 from h]
  · intro fuel s s1 name E e h
    simp only [evalExpr, evalF]
    rw [show (evalF fuel).exprF s E = .err e s1 from h]
  · intro fuel s s1 name E v hE hfind
    have hass : envAssign s1.store s1.env name v = .error (.UndefinedVariable name) :=
      (envAssignFuel_spec (s1.store.length + 1) s1.store s1.env name v).1 hfind
    simp only [evalExpr, evalF]
    rw [show (evalF fuel).exprF s E = .ok v s1 from hE]
    simp only [hass]

/-- Witness for C4 at concrete inputs: assigning `b` in a one-scope
chain binding only `a` fails with `UndefinedVariable b`; assigning `a`
overwrites the innermost binding; the Assignment expression defers to
`envAssign` after its right-hand side. -/
theorem c4_assignment_semantics_witness :
    envAssignFuel 2 [⟨[("a", .Number 1)], none⟩] 0 "b" .Nil =
      .error (.UndefinedVariable "b") ∧
    (∃ env, ([⟨[("a", .Number 1)], none⟩] : List Environment)[0]? = some env ∧
      envAssignFuel 2 [⟨[("a", .Number 1)], none⟩] 0 "a" .Nil =
        .ok ([⟨[("a", .Number 1)], none⟩].set 0
          { env with bindings := insertBinding env.bindings "a" .Nil })) ∧
    evalExpr 2 initState (.Assignment "x" (.Literal (.Number 3))) =
      (match envAssign initState.store initState.env "x" (.Number 3) with
       | .ok store1 => .ok .Nil { initState with store := store1 }
       | .error e => .err e initState) := by
  refine ⟨?_, ?_, ?_⟩
  · exact (c4_assignment_semantics.1 2 [⟨[("a", .Number 1)], none⟩] 0 "b" .Nil).1 (by decide)
  · exact (c4_assignment_semantics.1 2 [⟨[("a", .Number 1)], none⟩] 0 "a" .Nil).2 0 (by decide)
  · exact c4_assignment_semantics.2.1 1 initState initState "x" (.Literal (.Number 3))
      (.Number 3) rfl

/-- C6: a Variable expression looks the token's lexeme up walking the
environment chain outward: the result is the binding of the innermost
scope containing the name (`chainFindFuel`), and when no scope in the
chain contains it the expression evaluates to Nil instead of erroring. -/
theorem c6_variable_lookup :
    (∀ (fuel : Nat) (store : List Environment) (ref : Nat) (name : String),
      envGetFuel fuel store ref name =
        match chainFindFuel fuel store ref name with
        | none => none
        | some i => store[i]?.bind (fun env => lookupBinding env.bindings name)) ∧
    (∀ (fuel : Nat) (s : InterpState) (tok : Token),
      evalExpr (fuel + 1) s (.Variable tok) =
        .ok ((envGet s.store s.env (lexemeName tok)).getD .Nil) s) := by
  refine ⟨envGetFuel_spec, ?_⟩
  intro fuel s tok
  simp only [evalExpr, evalF]
  rcases h : envGet s.store s.env (lexemeName tok) with _ | v <;> simp [h]

/-- C7: the claim says scanning an input with an unterminated string
literal terminates and reports a scanning error. The code's string loop
compares `peek` (which is `'\0'` past the end) against `'"'` and
advances forever: it neither terminates nor reports anything. The model
maps that divergence to `none`; on the claim's kind of input, `scan`
yields `none` instead of a token vector or an error report. -/
theorem c7_unterminated_string_diverges : scan ['"', 'a', 'b', 'c'] = none := by decide

/-- C8, counterexample to the claim as stated: on the input `;` the
scanner terminates, but the concatenation of the lexemes of all produced
tokens is `;;` — the EOF sentinel is built from the stale
`start`/`current` span and duplicates the last lexeme — which differs
from the source with whitespace and comments removed, `;`. -/
theorem c8_roundtrip_counterexample :
    ∃ toks, scan [';'] = some toks ∧ concatLex toks ≠ stripWsComments [';'] :=
  ⟨[⟨.Semicolon, [';'], 0, none, 0⟩, ⟨.EOF, [';'], 0, none, 0⟩], by decide, by decide⟩

/-- C8, amended: for every input on which the scanner terminates, the
concatenation of the lexemes of the produced tokens other than the
final EOF sentinel equals the source with exactly the scanner-skipped
characters removed (`stripScanned`): whitespace and comments outside
string literals and unrecognised characters are removed, while
characters inside string literals — whitespace included — are kept. -/
theorem c8_roundtrip_amended (src : List Char) (tokens : List Token)
    (h : scan src = some tokens) :
    ∃ str, stripScanned src = some str ∧ concatLex tokens.dropLast = str := by
  rcases hsl : scanLoop (src.length + 1) ⟨0, 0, [], src, 0⟩ with _ | sf
  · rw [scan, hsl] at h; cases h
  · rw [scan, hsl, Option.map_some'] at h
    cases h
    obtain ⟨ts, eofTok, str, htok, heof, hne, hstrip, hcat⟩ := scanLoop_spec _ _ _ hsl
    refine ⟨str, hstrip, ?_⟩
    have : sf.tokens = ts ++ [eofTok] := by simpa using htok
    rw [this, List.dropLast_concat, hcat]

/-- Witness for the amended C8 at the input `;`. -/
theorem c8_roundtrip_amended_witness :
    ∃ str, stripScanned [';'] = some str ∧
      concatLex ([⟨.Semicolon, [';'], 0, none, 0⟩,
        ⟨.EOF, [';'], 0, none, 0⟩] : List Token).dropLast = str :=
  c8_roundtrip_amended [';'] _ (by decide)

/-- C9: whenever the scanner terminates, the produced token vector is
some EOF-free prefix followed by exactly one final EOF token. -/
theorem c9_eof_sentinel (src : List Char) (tokens : List Token) (h : scan src = some tokens) :
    ∃ ts eofTok, tokens = ts ++ [eofTok] ∧ eofTok.token_type = TokenType.EOF ∧
      ∀ t ∈ ts, t.token_type ≠ TokenType.EOF := by
  rcases hsl : scanLoop (src.length + 1) ⟨0, 0, [], src, 0⟩ with _ | sf
  · rw [scan, hsl] at h; cases h
  · rw [scan, hsl, Option.map_some'] at h
    cases h
    obtain ⟨ts, eofTok, str, htok, heof, hne, _, _⟩ := scanLoop_spec _ _ _ hsl
    exact ⟨ts, eofTok, by simpa using htok, heof, hne⟩

/-- Witness for C9 at the input `;`. -/
theorem c9_eof_sentinel_witness :
    ∃ ts eofTok,
      ([⟨.Semicolon, [';'], 0, none, 0⟩, ⟨.EOF, [';'], 0, none, 0⟩] : List Token) =
        ts ++ [eofTok] ∧
      eofTok.token_type = TokenType.EOF ∧ ∀ t ∈ ts, t.token_type ≠ TokenType.EOF :=
  c9_eof_sentinel [';'] _ (by decide)

/-- C10: calling a user function performs no arity check — the Call arm
evaluates the callee and then every argument before dispatch; parameter
binding succeeds whenever there are at least as many evaluated arguments
as parameters and ignores the extra arguments (`fun f(a){print a;}
f(1,2);` prints 1), while binding parameter `i` reads evaluated-argument
index `i`, so with fewer arguments than parameters the out-of-bounds
branch is reached and the run panics (`fun f(a,b){} f(1);`). -/
theorem c10_no_arity_check :
    (∀ (fuel : Nat) (s : InterpState) (e : Expr) (args : List Expr),
      evalExpr (fuel + 1) s (.Call e args) =
        (match evalExpr fuel s e with
         | .ok callee s1 =>
           (match evalArgs fuel s1 args with
            | .ok vs s2 => evalCallee fuel s2 callee vs
            | .err err s2 => .err err s2
            | .diverge => .diverge
            | .panicked => .panicked)
         | .err err s1 => .err err s1
         | .diverge => .diverge
         | .panicked => .panicked)) ∧
    (∀ (params : List String) (args extra : List Value) (store : List Environment)
      (ref i : Nat), i + params.length ≤ args.length →
      (∃ store1, bindParamsAux ref store params args i = some store1) ∧
      bindParamsAux ref store params (args ++ extra) i = bindParamsAux ref store params args i) ∧
    runProgram arityPanicProgram = .panicked ∧
    runOutput extraArgsProgram = some [.Number 1] := by
  refine ⟨?_, bindParamsAux_spec, ?_, ?_⟩
  · intro fuel s e args
    rfl
  · with_unfolding_all rfl
  · with_unfolding_all rfl

/-- Witness for C10 at concrete inputs: one parameter, two arguments —
binding succeeds and the extra argument plays no part. -/
theorem c10_no_arity_check_witness :
    (∃ store1, bindParamsAux 0 [⟨[], none⟩] ["a"] [.Number 1] 0 = some store1) ∧
    bindParamsAux 0 [⟨[], none⟩] ["a"] ([.Number 1] ++ [.Number 2]) 0 =
      bindParamsAux 0 [⟨[], none⟩] ["a"] [.Number 1] 0 :=
  c10_no_arity_check.2.1 ["a"] [.Number 1] [.Number 2] [⟨[], none⟩] 0 0 (by decide)
